import Mathlib

/-!
Shallow embedding of the typed-field CRM core from `src/crm.py` (the JSON API
variant, `crm*` definitions below) and `src/answer.py` (the HTML variant,
`ans*` definitions below).  The two variants share the field model, the
record and most of the store; they differ in `RateField.__contains__`, the
registered field kinds, `get_rate_stat` and the store's `loads`/`clear`.

Python values that can appear as a field's `value` are modelled by `JValue`
(the JSON value universe).  Python `float` is modelled by `ℚ`: every float
the program manipulates comes from `float(...)` of a string or a JSON
literal, and all comparisons the claims mention go through the same parse,
so exactness is preserved relative to the model.  `float` parsing is
modelled on the decimal forms (sign, digits, fraction, exponent); the
special spellings `inf`/`nan` and digit underscores are outside the model.
Strings are Lean `String`/lists of `Char`; `\d` in the phone pattern is
modelled as the ASCII digit test.
-/

/-- JSON-ish universe of Python values held in fields and messages. -/
inductive JValue where
  | jnull
  | jbool (b : Bool)
  | jnum (q : ℚ)
  | jstr (s : String)
  | jarr (xs : List JValue)
  | jobj (kvs : List (String × JValue))

/-- Python truthiness of a `JValue` (`if field_list:` etc.). -/
def pyTruthy : JValue → Bool
  | .jnull => false
  | .jbool b => b
  | .jnum q => q ≠ 0
  | .jstr s => s ≠ ""
  | .jarr xs => !xs.isEmpty
  | .jobj kvs => !kvs.isEmpty

/-- Key lookup in a decoded JSON object (`field_dict["value"]` etc.). -/
def jLookup (kvs : List (String × JValue)) (key : String) : Option JValue :=
  (kvs.find? (fun kv => kv.1 = key)).map (·.2)

/-- The exception kinds the two modules raise.  `valueError` and `typeError`
are the built-in Python exceptions that escape uncaught (e.g. `max([])`,
subscripting a non-dict); the others are the module's own classes. -/
inductive PyErr where
  | incorrectInput
  | fieldDecodeError
  | keyError
  | indexError
  | valueError
  | typeError
deriving DecidableEq

/-- Does the second character list start with the first? -/
def leadEq : List Char → List Char → Bool
  | [], _ => true
  | _ :: _, [] => false
  | a :: as, b :: bs => a = b && leadEq as bs

/-- Python `probe in hay` for strings: contiguous substring test
(the empty probe is contained in everything). -/
def subIn (p : List Char) : List Char → Bool
  | [] => leadEq p []
  | c :: rest => leadEq p (c :: rest) || subIn p rest

/-- The `probe in value` on Lean strings. -/
def strIn (probe hay : String) : Bool := subIn probe.data hay.data

/-! ### The field model (`DataField` and its subclasses)

A field is one of: a "general" field (class `DataField` or one of the
subclasses that only override `field_description`), which stores its value
verbatim; a phone field with its three captured groups; an email field; a
rate field holding a float.  `field_description` of a general field is the
class tag it was built from. -/

inductive DField where
  | general (desc : String) (value : JValue)
  | phone (country operCode number : String)
  | email (address : String)
  | rate (value : ℚ)

/-- The `field_description` of a field. -/
def fieldDesc : DField → String
  | .general d _ => d
  | .phone _ _ _ => "Phone"
  | .email _ => "Email"
  | .rate _ => "Rate"

/-- The composed normalized phone string `+{country}{operator}{number}`
(`PhoneField.value`). -/
def phoneValue (country operCode number : String) : String :=
  "+" ++ country ++ operCode ++ number

/-- The `self.value` of a field, as the Python object it holds. -/
def fieldValue : DField → JValue
  | .general _ v => v
  | .phone c o n => .jstr (phoneValue c o n)
  | .email a => .jstr a
  | .rate q => .jnum q

/-! ### The phone pattern `^\+?(\d{2})?\(?(0\d{2})\)?(\d{7}$)`

`re.search` with a `^`-anchored pattern matches at position 0 only.  All
quantified pieces are fixed-width, so the backtracking search amounts to
trying the sixteen present/absent combinations of `\+?`, `(\d{2})?`, `\(?`
and `\)?` in the regex engine's preference order (present before absent,
earlier choice points more significant) and keeping the first success.
`$` matches at the end of the string or just before a final newline. -/

/-- Take exactly `n` ASCII digits off the front. -/
def takeDigits : Nat → List Char → Option (List Char × List Char)
  | 0, s => some ([], s)
  | _ + 1, [] => none
  | n + 1, c :: s =>
      if c.isDigit then (takeDigits n s).map (fun dr => (c :: dr.1, dr.2)) else none

/-- Consume one expected character. -/
def expectCh (ch : Char) : List Char → Option (List Char)
  | [] => none
  | c :: s => if c = ch then some s else none

/-- Python `$` (no MULTILINE): end of string, or just before a final `\n`. -/
def atLineEnd (s : List Char) : Bool :=
  match s with
  | [] => true
  | [c] => c = '\n'
  | _ => false

/-- The mandatory operator group `(0\d{2})`: a literal `0` then two more
digits; returns the group and the remainder. -/
def operGroup : List Char → Option (List Char × List Char)
  | [] => none
  | c0 :: rest =>
      if c0 = '0' then (takeDigits 2 rest).map (fun dr => (c0 :: dr.1, dr.2)) else none

/-- One fixed alternative of the phone pattern: `plus`, `cc`, `par1`, `par2`
say whether `\+?`, `(\d{2})?`, `\(?`, `\)?` take their character(s).
Returns the three captured groups. -/
def tryCombo (plus cc par1 par2 : Bool) (s : List Char) :
    Option (Option (List Char) × List Char × List Char) :=
  (if plus then expectCh '+' s else some s).bind fun s1 =>
  (if cc then (takeDigits 2 s1).map (fun dr => (some dr.1, dr.2))
   else some (none, s1)).bind fun cs =>
  (if par1 then expectCh '(' cs.2 else some cs.2).bind fun s3 =>
  (operGroup s3).bind fun os =>
  (if par2 then expectCh ')' os.2 else some os.2).bind fun s5 =>
  (takeDigits 7 s5).bind fun ns =>
  if atLineEnd ns.2 then some (cs.1, os.1, ns.1) else none

/-- The sixteen alternatives in backtracking preference order. -/
def phoneCombos : List (Bool × Bool × Bool × Bool) :=
  [(true, true, true, true), (true, true, true, false),
   (true, true, false, true), (true, true, false, false),
   (true, false, true, true), (true, false, true, false),
   (true, false, false, true), (true, false, false, false),
   (false, true, true, true), (false, true, true, false),
   (false, true, false, true), (false, true, false, false),
   (false, false, true, true), (false, false, true, false),
   (false, false, false, true), (false, false, false, false)]

/-- The `re.search(PHONE_REGEX, value)`: the groups of the first alternative
that matches, if any. -/
def phoneMatch (s : List Char) : Option (Option (List Char) × List Char × List Char) :=
  phoneCombos.findSome? (fun q => tryCombo q.1 q.2.1 q.2.2.1 q.2.2.2 s)

/-- The `value.replace(" ", "")`: every space (only U+0020, not other
whitespace) is removed. -/
def pySpaceStrip (s : List Char) : List Char := s.filter (fun c => c ≠ ' ')

/-- The `PhoneField.validate`: strip spaces, match the pattern, default the
country code to `"38"`, compose the value.  The `operator is None` check in
the source can never fire because the operator group is mandatory in the
pattern; a failed match raises `IncorrectInput`.  All attribute assignments
happen after both checks. -/
def phoneValidate (raw : String) : Except PyErr DField :=
  match phoneMatch (pySpaceStrip raw.data) with
  | none => .error .incorrectInput
  | some (country, op, num) =>
      .ok (.phone (String.mk (country.getD ['3', '8'])) (String.mk op) (String.mk num))

/-! ### Python `float(...)` and `str(float)`

`float` of a string accepts optional surrounding whitespace, an optional
sign and a decimal literal (digits, optional fraction, optional exponent);
the model covers exactly those forms.  `str` of a float prints the shortest
decimal that reads back to the value; on the exact-`ℚ` model this is the
finite decimal expansion with no trailing zeros (integers print as `n.0`),
which coincides with Python on every value the program can build. -/

/-- ASCII digit value of a char (only used on digits). -/
def charVal (c : Char) : ℕ := c.toNat - 48

/-- Value of a big-endian ASCII digit string. -/
def digitsVal (cs : List Char) : ℕ := cs.foldl (fun a c => a * 10 + charVal c) 0

/-- The six characters `str.strip()` / `float(...)` treat as whitespace. -/
def isPyWs (c : Char) : Bool :=
  c = ' ' || c = '\t' || c = '\n' || c = '\r' || c = '\x0b' || c = '\x0c'

/-- Numeric value of `intPart.fracPart e exp` as an exact rational. -/
def decimalVal (intPart fracPart : List Char) (expNeg : Bool) (expDigits : ℕ) : ℚ :=
  let mant : ℚ := (digitsVal (intPart ++ fracPart) : ℚ) / (10 : ℚ) ^ fracPart.length
  if expNeg then mant / (10 : ℚ) ^ expDigits else mant * (10 : ℚ) ^ expDigits

/-- Parse the decimal body after the optional sign: `digits[.digits][exp]`,
`.digits[exp]`. -/
def parseBody (s : List Char) : Option ℚ :=
  let intPart := s.takeWhile Char.isDigit
  let rest := s.dropWhile Char.isDigit
  let (fracPart, rest) :=
    match rest with
    | '.' :: r => (r.takeWhile Char.isDigit, r.dropWhile Char.isDigit)
    | _ => ([], rest)
  if intPart.isEmpty && fracPart.isEmpty then none
  else
    match rest with
    | [] => some (decimalVal intPart fracPart false 0)
    | e :: r =>
        if e = 'e' || e = 'E' then
          let (expNeg, r) :=
            match r with
            | '-' :: r2 => (true, r2)
            | '+' :: r2 => (false, r2)
            | _ => (false, r)
          let expPart := r.takeWhile Char.isDigit
          let r2 := r.dropWhile Char.isDigit
          if expPart.isEmpty || !r2.isEmpty then none
          else some (decimalVal intPart fracPart expNeg (digitsVal expPart))
        else none

/-- The `float(s)` on a string, as an exact rational; `none` is `ValueError`. -/
def pyFloatParse (s : String) : Option ℚ :=
  let t := (s.data.dropWhile isPyWs).reverse.dropWhile isPyWs |>.reverse
  match t with
  | '-' :: r => (parseBody r).map Neg.neg
  | '+' :: r => parseBody r
  | r => parseBody r

/-- The `float(v)` on a decoded JSON value (`RateField.validate`): numbers pass
through, booleans coerce to 1/0, strings are parsed (`ValueError` is caught
by the source and re-raised as `IncorrectInput`), anything else is an
uncaught `TypeError`. -/
def rateParse : JValue → Except PyErr ℚ
  | .jnum q => .ok q
  | .jbool b => .ok (if b then 1 else 0)
  | .jstr s =>
      match pyFloatParse s with
      | some q => .ok q
      | none => .error .incorrectInput
  | _ => .error .typeError

/-- Left-pad a digit string with zeros to width `k`. -/
def padZeros (k : ℕ) (s : List Char) : List Char :=
  List.replicate (k - s.length) '0' ++ s

/-- The `str(x)` for a float, on the exact model: sign, integer part, point,
fraction digits (the least `k` with `den ∣ 10^k`, so no trailing zeros);
integers print as `n.0`.  The final clause is unreachable for values a
Python float can hold. -/
def pyFloatRepr (q : ℚ) : String :=
  let sign := if q < 0 then "-" else ""
  let n := q.num.natAbs
  let d := q.den
  if d = 1 then sign ++ Nat.repr n ++ ".0"
  else
    match (List.range 64).find? (fun k => 10 ^ k % d = 0) with
    | some k =>
        let scaled := n * (10 ^ k / d)
        sign ++ Nat.repr (scaled / 10 ^ k) ++ "." ++
          String.mk (padZeros k (Nat.repr (scaled % 10 ^ k)).data)
    | none => sign ++ Nat.repr n ++ "/" ++ Nat.repr d

/-! ### Email, general and rate validation -/

/-- The `EMAIL_REGEX.match` on the tail after the first `@`: does a prefix of
the form `[^@]+\.[^@]+` exist?  `seen` records whether at least one
non-`@` character precedes the current position. -/
def emailTailOk : Bool → List Char → Bool
  | _, [] => false
  | seen, c :: rest =>
      if c = '@' then false
      else if c = '.' && seen && (match rest with | r :: _ => r ≠ '@' | [] => false) then true
      else emailTailOk true rest

/-- The `EMAIL_REGEX.match(value)` for `[^@]+@[^@]+\.[^@]+`: an unanchored-end
prefix match, so trailing junk after a valid shape is accepted. -/
def emailHeadOk : Bool → List Char → Bool
  | _, [] => false
  | seen, '@' :: rest => seen && emailTailOk false rest
  | _, _ :: rest => emailHeadOk true rest

/-- Does the email pattern match (as a prefix) somewhere from position 0? -/
def emailOk (s : String) : Bool := emailHeadOk false s.data

/-- The `EmailField.validate`: pattern check before the assignment. -/
def emailValidate (v : JValue) : Except PyErr DField :=
  match v with
  | .jstr s => if emailOk s then .ok (.email s) else .error .incorrectInput
  | _ => .error .typeError

/-! ### The field registries and `field_decoder` -/

/-- The `field_description` tags whose classes add no validation
(`DataField` itself and the simple subclasses). -/
def generalKinds : List String :=
  ["General", "Name", "Surname", "Organization", "City", "Skill"]

/-- The `REGISTERED_FIELDS` keys in `crm.py`: every class, `DataField`
("General") included. -/
def crmRegistry : List String :=
  ["General", "Name", "Surname", "Organization", "City", "Skill", "Phone", "Email", "Rate"]

/-- The `REGISTERED_FIELDS` keys in `answer.py`: a strict subset. -/
def ansRegistry : List String := ["Name", "City", "Skill", "Phone", "Rate"]

/-- The `field_class(value)`: dispatch construction on the kind tag.  Any tag
other than Phone/Email/Rate constructs a general field storing the value
verbatim (`DataField.validate`). -/
def constructByKind (kind : String) (v : JValue) : Except PyErr DField :=
  if kind = "Phone" then
    match v with
    | .jstr s => phoneValidate s
    | _ => .error .typeError
  else if kind = "Email" then emailValidate v
  else if kind = "Rate" then (rateParse v).map DField.rate
  else .ok (.general kind v)

/-- The `field_decoder(field_dict)`: look up `field_name` in the registry and
construct from `value`.  A missing key or unknown tag is a `KeyError`,
caught and re-raised as `FieldDecodeError`; construction errors propagate
unchanged.  Subscripting a non-dict raises an uncaught `TypeError`. -/
def fieldDecoder (registry : List String) (j : JValue) : Except PyErr DField :=
  match j with
  | .jobj kvs =>
      match jLookup kvs "field_name" with
      | some (.jstr name) =>
          if registry.contains name then
            match jLookup kvs "value" with
            | some v => constructByKind name v
            | none => .error .fieldDecodeError
          else .error .fieldDecodeError
      | some _ => .error .fieldDecodeError
      | none => .error .fieldDecodeError
  | _ => .error .typeError

/-! ### `__contains__` and in-place `validate`

`probe in field` dispatches on the field's class.  General, phone and email
fields inherit `DataField.__contains__` / use their string value, so the
test is `probe in self.value`: substring for a string value, element or key
membership for a container value, an uncaught `TypeError` otherwise (string
equality stands in for Python object equality in container membership; the
program only ever compares strings there).  The two variants differ only on
`RateField`: in `crm.py` it is `float(probe) == self.value` with errors
swallowed to `False`; in `answer.py` it is `probe in str(self.value)`, and
numeric comparison lives in `__eq__` instead. -/

/-- The `probe in value` for the inherited `DataField.__contains__`. -/
def jContains (v : JValue) (probe : String) : Except PyErr Bool :=
  match v with
  | .jstr s => .ok (strIn probe s)
  | .jarr xs => .ok (xs.any (fun x => match x with | .jstr s => s = probe | _ => false))
  | .jobj kvs => .ok (kvs.any (fun kv => kv.1 = probe))
  | _ => .error .typeError

/-- The `RateField.__contains__` in `crm.py`: numeric equality of the re-parsed
probe, `False` on `ValueError`/`TypeError`. -/
def crmRateContains (q : ℚ) (probe : String) : Bool :=
  match pyFloatParse probe with
  | some x => x = q
  | none => false

/-- The `search_value in field` in the `crm.py` variant. -/
def crmFieldContains (f : DField) (probe : String) : Except PyErr Bool :=
  match f with
  | .general _ v => jContains v probe
  | .phone c o n => .ok (strIn probe (phoneValue c o n))
  | .email a => .ok (strIn probe a)
  | .rate q => .ok (crmRateContains q probe)

/-- The `search_value in field` in the `answer.py` variant: for `RateField`,
substring containment in `str(self.value)`. -/
def ansFieldContains (f : DField) (probe : String) : Except PyErr Bool :=
  match f with
  | .general _ v => jContains v probe
  | .phone c o n => .ok (strIn probe (phoneValue c o n))
  | .email a => .ok (strIn probe a)
  | .rate q => .ok (strIn probe (pyFloatRepr q))

/-- The `RateField.__eq__` in `answer.py`: numeric equality of the re-parsed
other operand, `False` on `ValueError`/`TypeError`. -/
def ansRateEq (q : ℚ) (other : String) : Bool :=
  match pyFloatParse other with
  | some x => x = q
  | none => false

/-- The `field.validate(value)` called on an existing field (`PATCH` /
`Record.update`): the kind stays fixed; the result is the raised exception
if any, paired with the field as it stands afterwards.  Each validator in
the source performs all its checks before assigning any attribute, which is
what makes the error cases leave the field exactly as it was. -/
def validateField (f : DField) (v : JValue) : Except PyErr Unit × DField :=
  match f with
  | .general d _ => (.ok (), .general d v)
  | .phone c o n =>
      match v with
      | .jstr raw =>
          match phoneValidate raw with
          | .ok f' => (.ok (), f')
          | .error e => (.error e, .phone c o n)
      | _ => (.error .typeError, .phone c o n)
  | .email a =>
      match v with
      | .jstr s => if emailOk s then (.ok (), .email s) else (.error .incorrectInput, .email a)
      | _ => (.error .typeError, .email a)
  | .rate q =>
      match rateParse v with
      | .ok x => (.ok (), .rate x)
      | .error e => (.error e, .rate q)

/-! ### `Record` (named `Developer` in `answer.py`)

A record is its ordered field list.  The search methods thread the possible
exceptions from `__contains__`. -/

/-- The `Record.field_search`: walk the fields; on the FIRST field whose
`field_description` matches, return `search_value in field` and stop;
`False` when no field has the kind. -/
def recFieldSearch (fc : DField → String → Except PyErr Bool)
    (r : List DField) (kind probe : String) : Except PyErr Bool :=
  match r with
  | [] => .ok false
  | f :: rest =>
      if fieldDesc f = kind then fc f probe else recFieldSearch fc rest kind probe

/-- The `Record.multiple_search(**criteria)`: conjunction over the criteria,
stopping at the first falsy `field_search`. -/
def recMultiSearch (fc : DField → String → Except PyErr Bool)
    (r : List DField) : List (String × String) → Except PyErr Bool
  | [] => .ok true
  | (kind, probe) :: rest =>
      match recFieldSearch fc r kind probe with
      | .error e => .error e
      | .ok true => recMultiSearch fc r rest
      | .ok false => .ok false

/-- The `Record.update(field_idx, value)`: fetch the field (an out-of-range
index raises `IndexError`), then re-validate in place. -/
def recUpdate (r : List DField) (idx : ℕ) (v : JValue) :
    Except PyErr Unit × List DField :=
  if h : idx < r.length then
    let res := validateField (r.get ⟨idx, h⟩) v
    (res.1, r.set idx res.2)
  else (.error .indexError, r)

/-- The `Record.get_rate`: the `value` of the first field whose
`field_description` is `"Rate"`, if any. -/
def getRate : List DField → Option JValue
  | [] => none
  | f :: rest => if fieldDesc f = "Rate" then some (fieldValue f) else getRate rest

/-- The `Record.to_dict` in `crm.py`: the ordered list of field dicts
`{"value": ..., "field_name": ...}`. -/
def fieldToDict (f : DField) : JValue :=
  .jobj [("value", fieldValue f), ("field_name", .jstr (fieldDesc f))]

/-- A record's serialized form: the list of its fields' dicts. -/
def recToDict (r : List DField) : JValue := .jarr (r.map fieldToDict)

/-- Decode a list of field dicts in order, stopping at the first error. -/
def decodeFields (registry : List String) : List JValue → Except PyErr (List DField)
  | [] => .ok []
  | j :: rest =>
      match fieldDecoder registry j with
      | .error e => .error e
      | .ok f => (decodeFields registry rest).map (f :: ·)

/-- The `Record.from_json(field_list)` on a fresh record: iterate the decoded
list and `add` each field.  A falsy non-list yields the empty record (the
`if field_list:` guard); a truthy non-list is an uncaught `TypeError`. -/
def recFromJson (registry : List String) : JValue → Except PyErr (List DField)
  | .jarr xs => decodeFields registry xs
  | v => if pyTruthy v then .error .typeError else .ok []

/-! ### `get_rate_stat` -/

/-- The rates list built by the stat loop: the first-Rate value of each
record, kept only when truthy — so a rate of exactly `0` is dropped. -/
def collectRates : List (List DField) → List JValue
  | [] => []
  | r :: rest =>
      match getRate r with
      | some v => if pyTruthy v then v :: collectRates rest else collectRates rest
      | none => collectRates rest

/-- Numeric reading of a collected rate for `statistics.mean`/`min`/`max`;
a non-number there would raise, which cannot happen for decoded fields. -/
def jNum? : JValue → Option ℚ
  | .jnum q => some q
  | .jbool b => some (if b then 1 else 0)
  | _ => none

/-- Read every collected rate as a number, in order (`none` would be the
`statistics.mean`/`min` call raising on a non-number). -/
def ratesToQ : List JValue → Option (List ℚ)
  | [] => some []
  | v :: rest =>
      match jNum? v with
      | none => none
      | some q => (ratesToQ rest).map (q :: ·)

/-- Minimum of a nonempty rational list (`min(rates)`). -/
def listMin (q : ℚ) (qs : List ℚ) : ℚ := qs.foldl min q

/-- Maximum of a nonempty rational list (`max(rates)`). -/
def listMax (q : ℚ) (qs : List ℚ) : ℚ := qs.foldl max q

/-- The `get_rate_stat` in `crm.py`: the result dict in insertion order — note
no sum/total entry exists in this variant. -/
def crmGetRateStat (records : List (List DField)) : Except PyErr (List (String × JValue)) :=
  match ratesToQ (collectRates records) with
  | none => .error .typeError
  | some qs =>
      match qs with
      | [] => .ok [("mean", .jnull), ("min", .jnull), ("max", .jnull), ("item_number", .jnum 0)]
      | q :: rest =>
          .ok [("mean", .jnum (qs.sum / qs.length)),
               ("min", .jnum (listMin q rest)), ("max", .jnum (listMax q rest)),
               ("item_number", .jnum qs.length)]

/-- The `get_rate_stat` in `answer.py`: same aggregates plus a `"total"` sum. -/
def ansGetRateStat (records : List (List DField)) : Except PyErr (List (String × JValue)) :=
  match ratesToQ (collectRates records) with
  | none => .error .typeError
  | some qs =>
      match qs with
      | [] => .ok [("mean", .jnull), ("min", .jnull), ("max", .jnull),
                   ("item_number", .jnum 0), ("total", .jnum 0)]
      | q :: rest =>
          .ok [("mean", .jnum (qs.sum / qs.length)),
               ("min", .jnum (listMin q rest)), ("max", .jnum (listMax q rest)),
               ("item_number", .jnum qs.length), ("total", .jnum qs.sum)]

/-! ### `AddressBook`

The store is an insertion-ordered dict from record id to record plus the
id counter (`last_record_id` / `last_developer_id`).  Ids are modelled as
naturals: every id the service itself creates is a natural, and the claims
only concern such stores. -/

structure AddressBook where
  records : List (ℕ × List DField)
  lastId : ℕ

/-- The `d[k] = v` on an insertion-ordered dict: overwrite in place if the key
exists, append otherwise. -/
def pyDictInsert (k : ℕ) (v : List DField) :
    List (ℕ × List DField) → List (ℕ × List DField)
  | [] => [(k, v)]
  | (k', v') :: rest =>
      if k' = k then (k, v) :: rest else (k', v') :: pyDictInsert k v rest

/-- The `AddressBook.add`: store under `last_record_id`, return that id, then
increment the counter.  Identical in both variants. -/
def abAdd (s : AddressBook) (r : List DField) : AddressBook × ℕ :=
  (⟨pyDictInsert s.lastId r s.records, s.lastId + 1⟩, s.lastId)

/-- The `AddressBook.replace`: `KeyError` when the id is absent, else overwrite
in place.  Identical in both variants. -/
def abReplace (s : AddressBook) (id : ℕ) (r : List DField) : Except PyErr AddressBook :=
  if (s.records.find? (fun kv => kv.1 = id)).isSome then
    .ok ⟨pyDictInsert id r s.records, s.lastId⟩
  else .error .keyError

/-- The `AddressBook.delete`: `records.pop(key)`, `KeyError` when absent.
Identical in both variants. -/
def abDelete (s : AddressBook) (id : ℕ) : Except PyErr AddressBook :=
  if (s.records.find? (fun kv => kv.1 = id)).isSome then
    .ok ⟨s.records.filter (fun kv => kv.1 ≠ id), s.lastId⟩
  else .error .keyError

/-- The `AddressBook.clear` (only in `answer.py`): empty the dict and reset the
counter to 0. -/
def ansClear (_ : AddressBook) : AddressBook := ⟨[], 0⟩

/-- The `AddressBook.multiple_search`: the sub-dict of records whose
`multiple_search` is truthy, in store order. -/
def abMultiSearch (fc : DField → String → Except PyErr Bool) (crit : List (String × String)) :
    List (ℕ × List DField) → Except PyErr (List (ℕ × List DField))
  | [] => .ok []
  | (id, r) :: rest =>
      match recMultiSearch fc r crit with
      | .error e => .error e
      | .ok b =>
          (abMultiSearch fc crit rest).map (fun found => if b then (id, r) :: found else found)

/-! ### Serialization

`dumps` builds `{str(id): <record serialization>}` and JSON-encodes it;
`loads` decodes entry by entry.  Rendering/parsing of the JSON text is a
bijection on these trees (Python `json` round-trips objects with string
keys, preserving order), so byte-for-byte equality of two dumps outputs is
equality of the trees built here, and the model works on the trees. -/

/-- ASCII digit character for a value below ten. -/
def digitToChar (d : ℕ) : Char := Char.ofNat (48 + d)

/-- The `str(n)` for a natural number (the dict key written by `json.dumps`). -/
def pyNatRepr (n : ℕ) : String :=
  if n = 0 then "0" else String.mk (((Nat.digits 10 n).map digitToChar).reverse)

/-- The `int(s)` for the keys read back by `loads`, modelled on canonical digit
strings; a non-digit key raises an uncaught `ValueError`. -/
def pyNatParse (s : String) : Option ℕ :=
  if !s.data.isEmpty && s.data.all Char.isDigit then some (digitsVal s.data) else none

/-- The `AddressBook.dumps` in `crm.py`, as the JSON object tree:
`{str(id): [field dicts]}` in store order. -/
def crmDumps (s : AddressBook) : List (String × JValue) :=
  s.records.map (fun kv => (pyNatRepr kv.1, recToDict kv.2))

/-- A developer's `to_json` in `answer.py`: `{"fields": [field dicts]}`. -/
def ansDevToJson (r : List DField) : JValue := .jobj [("fields", recToDict r)]

/-- The `AddressBook.dumps` in `answer.py`. -/
def ansDumps (s : AddressBook) : List (String × JValue) :=
  s.records.map (fun kv => (pyNatRepr kv.1, ansDevToJson kv.2))

/-- The entry loop of `crm.py`'s `loads`: parse each key with `int(...)`,
decode the record, insert under the parsed id. -/
def crmLoadsCore (acc : List (ℕ × List DField)) :
    List (String × JValue) → Except PyErr (List (ℕ × List DField))
  | [] => .ok acc
  | (k, v) :: rest =>
      match pyNatParse k with
      | none => .error .valueError
      | some id =>
          match recFromJson crmRegistry v with
          | .error e => .error e
          | .ok fields => crmLoadsCore (pyDictInsert id fields acc) rest

/-- The `AddressBook.loads` in `crm.py`: clear, re-insert every entry under its
persisted id, then `last_record_id = max(keys) + 1` — `max` of an empty
dict raises an uncaught `ValueError`. -/
def crmLoads (_ : AddressBook) (input : List (String × JValue)) : Except PyErr AddressBook :=
  match crmLoadsCore [] input with
  | .error e => .error e
  | .ok recs =>
      match recs.map (·.1) with
      | [] => .error .valueError
      | k :: ks => .ok ⟨recs, ks.foldl max k + 1⟩

/-- A developer's `from_json` in `answer.py`: fetch the `"fields"` list
(`KeyError` if absent) and decode it. -/
def ansDevFromJson : JValue → Except PyErr (List DField)
  | .jobj kvs =>
      match jLookup kvs "fields" with
      | some fl => recFromJson ansRegistry fl
      | none => .error .keyError
  | _ => .error .typeError

/-- The entry loop of `answer.py`'s `loads`: ids in the input are ignored
and every decoded developer is re-`add`ed, renumbering from the current
counter. -/
def ansLoadsCore (s : AddressBook) :
    List (String × JValue) → Except PyErr AddressBook
  | [] => .ok s
  | (_, v) :: rest =>
      match ansDevFromJson v with
      | .error e => .error e
      | .ok dev => ansLoadsCore (abAdd s dev).1 rest

/-- The `AddressBook.loads` in `answer.py`: clear, reset the counter to 0, then
re-add every decoded developer in input order. -/
def ansLoads (_ : AddressBook) (input : List (String × JValue)) : Except PyErr AddressBook :=
  ansLoadsCore ⟨[], 0⟩ input

/-! ### Store operation sequences (for the id-allocation invariant)

`issued` is a ghost trace of every id `add` ever returned, in order. -/

structure AbExec where
  store : AddressBook
  issued : List ℕ

inductive StoreOp where
  | add (r : List DField)
  | repl (id : ℕ) (r : List DField)
  | del (id : ℕ)
  | clear
  | load (input : List (String × JValue))

/-- Does the operation avoid `clear` and bulk-load? -/
def basicOp : StoreOp → Bool
  | .add _ => true
  | .repl _ _ => true
  | .del _ => true
  | .clear => false
  | .load _ => false

/-- One `answer.py` store operation (the variant that has all five). -/
def ansStep (e : AbExec) : StoreOp → Except PyErr AbExec
  | .add r =>
      let res := abAdd e.store r
      .ok ⟨res.1, e.issued ++ [res.2]⟩
  | .repl id r => (abReplace e.store id r).map (fun s => ⟨s, e.issued⟩)
  | .del id => (abDelete e.store id).map (fun s => ⟨s, e.issued⟩)
  | .clear => .ok ⟨ansClear e.store, e.issued⟩
  | .load input =>
      (ansLoads e.store input).map (fun s => ⟨s, e.issued ++ List.range s.lastId⟩)

/-- Run a sequence of `answer.py` store operations from an execution state;
a raised exception aborts the sequence. -/
def ansRun (e : AbExec) : List StoreOp → Except PyErr AbExec
  | [] => .ok e
  | op :: rest =>
      match ansStep e op with
      | .error er => .error er
      | .ok e' => ansRun e' rest

/-! ### Well-formedness of stored fields

A field is well formed when it is observably the output of a successful
construction through that variant's registry: exactly the stores the
round-trip claim quantifies over ("built purely from valid field
constructions"). -/

/-- Structure of the three captured phone groups after a successful match:
two-digit country code, `0dd` operator code, seven-digit number. -/
def phoneShapeOk (c o n : String) : Bool :=
  decide (c.data.length = 2) && c.data.all Char.isDigit &&
  (match o.data with
   | c0 :: rest => c0 = '0' && decide (rest.length = 2) && rest.all Char.isDigit
   | [] => false) &&
  decide (n.data.length = 7) && n.data.all Char.isDigit

/-- A field constructible in the `crm.py` variant. -/
def crmFieldWF : DField → Bool
  | .general d _ => decide (d ∈ generalKinds)
  | .phone c o n => phoneShapeOk c o n
  | .email a => emailOk a
  | .rate _ => true

/-- A field constructible in the `answer.py` variant (whose registry has no
General, Surname, Organization or Email entry). -/
def ansFieldWF : DField → Bool
  | .general d _ => decide (d ∈ ["Name", "City", "Skill"])
  | .phone c o n => phoneShapeOk c o n
  | .email _ => false
  | .rate _ => true

/-- The stripping step as the claim words it ("strips all whitespace"),
for comparison with the code's space-only `replace(" ", "")`. -/
def claimWsStrip (s : List Char) : List Char := s.filter (fun c => !isPyWs c)

/-! ## Helper lemmas -/

theorem stringMk_data (s : String) : String.mk s.data = s := rfl

theorem takeDigits_eq_some {n : ℕ} {s d r : List Char}
    (h : takeDigits n s = some (d, r)) :
    d.length = n ∧ (∀ c ∈ d, c.isDigit) ∧ s = d ++ r := by
  induction n generalizing s d r with
  | zero =>
      simp only [takeDigits, Option.some.injEq, Prod.mk.injEq] at h
      rcases h with ⟨h1, h2⟩
      subst h1; subst h2; simp
  | succ n ih =>
      match s with
      | [] => simp [takeDigits] at h
      | c :: s' =>
          simp only [takeDigits] at h
          by_cases hc : c.isDigit
          · rw [if_pos hc] at h
            match htd : takeDigits n s' with
            | none => rw [htd] at h; simp at h
            | some (d', r') =>
                rw [htd] at h
                simp only [Option.map_some', Option.some.injEq, Prod.mk.injEq] at h
                rcases h with ⟨h1, h2⟩
                obtain ⟨l1, l2, l3⟩ := ih htd
                subst h2
                constructor
                · rw [← h1]; simp [l1]
                constructor
                · intro x hx
                  rw [← h1] at hx
                  rcases List.mem_cons.mp hx with rfl | hx'
                  · exact hc
                  · exact l2 x hx'
                · rw [← h1, l3]; simp
          · rw [if_neg hc] at h; simp at h

theorem takeDigits_of_append {d : List Char} (r : List Char)
    (h2 : ∀ c ∈ d, c.isDigit) :
    takeDigits d.length (d ++ r) = some (d, r) := by
  induction d with
  | nil => simp [takeDigits]
  | cons c d' ih =>
      have hc : c.isDigit := h2 c (List.mem_cons_self c d')
      simp only [List.length_cons, List.cons_append, takeDigits, hc, if_pos]
      show Option.map _ (takeDigits d'.length (d' ++ r)) = _
      rw [ih (fun x hx => h2 x (List.mem_cons_of_mem c hx))]
      rfl

theorem expectCh_eq_some {ch : Char} {s r : List Char} (h : expectCh ch s = some r) :
    s = ch :: r := by
  match s with
  | [] => simp [expectCh] at h
  | c :: s' =>
      simp only [expectCh] at h
      by_cases hc : c = ch
      · rw [if_pos hc] at h
        simp only [Option.some.injEq] at h
        rw [hc, h]
      · rw [if_neg hc] at h; simp at h

theorem operGroup_eq_some {s o r : List Char} (h : operGroup s = some (o, r)) :
    ∃ o2, o = '0' :: o2 ∧ o2.length = 2 ∧ (∀ ch ∈ o2, ch.isDigit) ∧ s = o ++ r := by
  match s with
  | [] => simp [operGroup] at h
  | c0 :: rest =>
      simp only [operGroup] at h
      by_cases hc : c0 = '0'
      · rw [if_pos hc] at h
        match htd : takeDigits 2 rest with
        | none => rw [htd] at h; simp at h
        | some (d, r') =>
            rw [htd] at h
            simp only [Option.map_some', Option.some.injEq, Prod.mk.injEq] at h
            obtain ⟨h1, h2⟩ := h
            obtain ⟨l1, l2, l3⟩ := takeDigits_eq_some htd
            subst hc h2
            exact ⟨d, h1.symm, l1, l2, by rw [← h1, l3]; simp⟩
      · rw [if_neg hc] at h; simp at h

theorem tryCombo_eq_some {p c o l : Bool} {s : List Char}
    {co : Option (List Char)} {op num : List Char}
    (h : tryCombo p c o l s = some (co, op, num)) :
    (∀ cd, co = some cd → cd.length = 2 ∧ ∀ ch ∈ cd, ch.isDigit) ∧
    (∃ o2, op = '0' :: o2 ∧ o2.length = 2 ∧ ∀ ch ∈ o2, ch.isDigit) ∧
    num.length = 7 ∧ (∀ ch ∈ num, ch.isDigit) := by
  simp only [tryCombo, Option.bind_eq_some] at h
  obtain ⟨s1, -, cs, hcs, s3, -, os, hos, s5, -, ns, hns, hfin⟩ := h
  have hco : ∀ cd, cs.1 = some cd → cd.length = 2 ∧ ∀ ch ∈ cd, ch.isDigit := by
    intro cd hcd
    cases c with
    | false =>
        rw [if_neg (by simp)] at hcs
        simp only [Option.some.injEq] at hcs
        rw [← hcs] at hcd; simp at hcd
    | true =>
        rw [if_pos rfl] at hcs
        match htd : takeDigits 2 s1 with
        | none => rw [htd] at hcs; simp at hcs
        | some (d, r') =>
            rw [htd] at hcs
            simp only [Option.map_some', Option.some.injEq] at hcs
            obtain ⟨l1, l2, -⟩ := takeDigits_eq_some htd
            rw [← hcs] at hcd
            simp only [Option.some.injEq] at hcd
            exact hcd ▸ ⟨l1, l2⟩
  obtain ⟨o2, ho2, hlen, hdig, -⟩ := operGroup_eq_some hos
  obtain ⟨n1, n2, -⟩ := takeDigits_eq_some hns
  by_cases he : atLineEnd ns.2
  · rw [if_pos he] at hfin
    simp only [Option.some.injEq, Prod.mk.injEq] at hfin
    obtain ⟨f1, f2, f3⟩ := hfin
    subst f1; subst f2; subst f3
    exact ⟨hco, ⟨o2, ho2, hlen, hdig⟩, n1, n2⟩
  · rw [if_neg he] at hfin; simp at hfin

theorem findSome?_eq_some_mem {α β : Type} {l : List α} {f : α → Option β} {b : β}
    (h : l.findSome? f = some b) : ∃ a ∈ l, f a = some b := by
  induction l with
  | nil => simp [List.findSome?] at h
  | cons x xs ih =>
      rw [List.findSome?_cons] at h
      match hx : f x with
      | some y =>
          rw [hx] at h
          exact ⟨x, List.mem_cons_self x xs, hx.trans h⟩
      | none =>
          rw [hx] at h
          obtain ⟨a, ha, hfa⟩ := ih h
          exact ⟨a, List.mem_cons_of_mem x ha, hfa⟩

theorem phoneMatch_eq_some {s : List Char} {co : Option (List Char)} {op num : List Char}
    (h : phoneMatch s = some (co, op, num)) :
    (∀ cd, co = some cd → cd.length = 2 ∧ ∀ ch ∈ cd, ch.isDigit) ∧
    (∃ o2, op = '0' :: o2 ∧ o2.length = 2 ∧ ∀ ch ∈ o2, ch.isDigit) ∧
    num.length = 7 ∧ (∀ ch ∈ num, ch.isDigit) := by
  obtain ⟨q, -, hq⟩ := findSome?_eq_some_mem h
  exact tryCombo_eq_some hq

theorem digit_ne_of {c d : Char} (h : c.isDigit = true) (hd : d.isDigit = false) :
    c ≠ d := by
  intro heq; rw [heq] at h; rw [h] at hd; exact Bool.noConfusion hd

theorem expectCh_cons_self (ch : Char) (r : List Char) : expectCh ch (ch :: r) = some r := by
  simp [expectCh]

theorem expectCh_cons_ne {ch c : Char} (h : ¬(c = ch)) (r : List Char) :
    expectCh ch (c :: r) = none := by
  simp [expectCh, h]

theorem phoneShapeOk_spec {c o n : String} (h : phoneShapeOk c o n = true) :
    c.data.length = 2 ∧ (∀ ch ∈ c.data, ch.isDigit) ∧
    (∃ o2, o.data = '0' :: o2 ∧ o2.length = 2 ∧ ∀ ch ∈ o2, ch.isDigit) ∧
    n.data.length = 7 ∧ (∀ ch ∈ n.data, ch.isDigit) := by
  unfold phoneShapeOk at h
  match hod : o.data with
  | [] => rw [hod] at h; simp at h
  | c0 :: rest =>
      rw [hod] at h
      simp only [Bool.and_eq_true, decide_eq_true_eq, List.all_eq_true] at h
      obtain ⟨⟨⟨⟨hc1, hc2⟩, ⟨⟨hc0, hr1⟩, hr2⟩⟩, hn1⟩, hn2⟩ := h
      exact ⟨hc1, hc2, ⟨rest, by rw [hc0], hr1, hr2⟩, hn1, hn2⟩

theorem phoneShapeOk_build {co : Option (List Char)} {op num : List Char}
    (hco : ∀ cd, co = some cd → cd.length = 2 ∧ ∀ ch ∈ cd, ch.isDigit)
    (hop : ∃ o2, op = '0' :: o2 ∧ o2.length = 2 ∧ ∀ ch ∈ o2, ch.isDigit)
    (hn1 : num.length = 7) (hn2 : ∀ ch ∈ num, ch.isDigit) :
    phoneShapeOk (String.mk (co.getD ['3', '8'])) (String.mk op) (String.mk num) = true := by
  obtain ⟨o2, ho, hl, hd⟩ := hop
  have hcd : (co.getD ['3', '8']).length = 2 ∧ ∀ ch ∈ co.getD ['3', '8'], ch.isDigit := by
    match co with
    | none => exact ⟨rfl, by decide⟩
    | some cd => exact hco cd rfl
  unfold phoneShapeOk
  rw [show (String.mk op).data = op from rfl, ho]
  simp only [show (String.mk (co.getD ['3', '8'])).data = co.getD ['3', '8'] from rfl,
    show (String.mk num).data = num from rfl, Bool.and_eq_true, decide_eq_true_eq,
    List.all_eq_true]
  exact ⟨⟨⟨⟨hcd.1, hcd.2⟩, ⟨trivial, hl⟩, hd⟩, hn1⟩, hn2⟩

theorem phoneValidate_ok_spec {raw : String} {f : DField} (h : phoneValidate raw = .ok f) :
    ∃ c o n, f = .phone c o n ∧ phoneShapeOk c o n = true ∧
      ∀ op num, phoneMatch (pySpaceStrip raw.data) = some (none, op, num) → c = "38" := by
  unfold phoneValidate at h
  match hm : phoneMatch (pySpaceStrip raw.data) with
  | none => rw [hm] at h; exact absurd h (by simp)
  | some (co, op, num) =>
      rw [hm] at h
      simp only [Except.ok.injEq] at h
      obtain ⟨hco, hop, hn1, hn2⟩ := phoneMatch_eq_some hm
      refine ⟨_, _, _, h.symm, phoneShapeOk_build hco hop hn1 hn2, ?_⟩
      intro op' num' hm'
      simp only [Option.some.injEq, Prod.mk.injEq] at hm'
      obtain ⟨hco', -, -⟩ := hm'
      subst hco'
      rfl

theorem pySpaceStrip_of_digits {l : List Char} (h : ∀ ch ∈ l, ch.isDigit) :
    pySpaceStrip l = l := by
  unfold pySpaceStrip
  rw [List.filter_eq_self]
  intro a ha
  simp only [ne_eq, decide_eq_true_eq]
  exact digit_ne_of (h a ha) (by decide)

/-- Re-parsing the composed normalized phone value: only the fourth
alternative (`+` present, country present, no parentheses) matches, and it
recovers exactly the same groups. -/
theorem phoneValidate_value {c o n : String} (h : phoneShapeOk c o n = true) :
    phoneValidate (phoneValue c o n) = .ok (.phone c o n) := by
  obtain ⟨hc1, hc2, ⟨o2, ho, hol, hod⟩, hn1, hn2⟩ := phoneShapeOk_spec h
  have hdata : (phoneValue c o n).data = '+' :: (c.data ++ (o.data ++ n.data)) := by
    unfold phoneValue
    rw [String.data_append, String.data_append, String.data_append]
    simp
  have hstrip : pySpaceStrip ((phoneValue c o n).data) = '+' :: (c.data ++ (o.data ++ n.data)) := by
    rw [hdata]
    unfold pySpaceStrip
    rw [List.filter_cons_of_pos (by decide)]
    have : List.filter (fun ch => decide ¬(ch = ' ')) (c.data ++ (o.data ++ n.data)) =
        c.data ++ (o.data ++ n.data) := by
      rw [List.filter_eq_self]
      intro a ha
      simp only [List.mem_append] at ha
      have had : a.isDigit := by
        rcases ha with h1 | h2 | h3
        · exact hc2 a h1
        · rw [ho] at h2
          rcases List.mem_cons.mp h2 with rfl | h2'
          · decide
          · exact hod a h2'
        · exact hn2 a h3
      simp only [decide_eq_true_eq]
      exact digit_ne_of had (by decide)
    rw [this]
  -- facts about the pieces
  have htd2 : takeDigits 2 (c.data ++ (o.data ++ n.data)) = some (c.data, o.data ++ n.data) := by
    rw [← hc1]; exact takeDigits_of_append _ hc2
  have e1 : expectCh '(' (o.data ++ n.data) = none := by
    rw [ho, List.cons_append]
    exact expectCh_cons_ne (by decide) _
  have hncons : ∃ d t, n.data = d :: t ∧ d.isDigit := by
    match hnn : n.data with
    | [] => rw [hnn] at hn1; simp at hn1
    | d :: t => exact ⟨d, t, rfl, hn2 d (hnn ▸ List.mem_cons_self d t)⟩
  obtain ⟨d, t, hnd, hdig⟩ := hncons
  have e2 : expectCh ')' n.data = none := by
    rw [hnd]; exact expectCh_cons_ne (digit_ne_of hdig (by decide)) _
  have hog : operGroup (o.data ++ n.data) = some (o.data, n.data) := by
    rw [ho, List.cons_append]
    show (if ('0' : Char) = '0' then
        Option.map (fun dr => ('0' :: dr.1, dr.2)) (takeDigits 2 (o2 ++ n.data))
      else none) = some ('0' :: o2, n.data)
    rw [if_pos rfl, ← hol, takeDigits_of_append _ hod]
    rfl
  have e3 : takeDigits 7 n.data = some (n.data, []) := by
    have h0 := takeDigits_of_append (d := n.data) [] hn2
    rw [List.append_nil, hn1] at h0
    exact h0
  -- the four relevant alternatives
  have hA : ∀ l : Bool, tryCombo true true true l ('+' :: (c.data ++ (o.data ++ n.data))) = none := by
    intro l
    simp [tryCombo, expectCh_cons_self, htd2, e1]
  have hB : tryCombo true true false true ('+' :: (c.data ++ (o.data ++ n.data))) = none := by
    simp [tryCombo, expectCh_cons_self, htd2, hog, e2]
  have hC : tryCombo true true false false ('+' :: (c.data ++ (o.data ++ n.data))) =
      some (some c.data, o.data, n.data) := by
    simp [tryCombo, expectCh_cons_self, htd2, hog, e3, atLineEnd]
  -- assemble: the first three alternatives fail, the fourth succeeds
  have hmatch : phoneMatch (pySpaceStrip ((phoneValue c o n).data)) =
      some (some c.data, o.data, n.data) := by
    rw [hstrip]
    unfold phoneMatch phoneCombos
    rw [List.findSome?_cons]
    rw [hA true]
    rw [List.findSome?_cons]
    rw [hA false]
    rw [List.findSome?_cons]
    rw [hB]
    rw [List.findSome?_cons]
    rw [hC]
  unfold phoneValidate
  rw [hmatch]
  rfl

theorem phoneValue_data (c o n : String) :
    (phoneValue c o n).data = '+' :: (c.data ++ (o.data ++ n.data)) := by
  unfold phoneValue
  rw [String.data_append, String.data_append, String.data_append]
  simp

/-! ## Claim theorems -/

/-- Claim C4.  For every raw phone string on which Phone construction
succeeds, the normalized value begins with `+` followed only by digits;
constructing a Phone field from that normalized value succeeds again and
yields the identical field (so the identical normalized value); and when
the optional country-code group is absent from the match, the country code
defaults to `"38"`. -/
theorem phone_normalization_idempotent (raw c o n : String)
    (h : phoneValidate raw = .ok (.phone c o n)) :
    ((phoneValue c o n).data.head? = some '+' ∧
      ∀ ch ∈ (phoneValue c o n).data.tail, ch.isDigit) ∧
    phoneValidate (phoneValue c o n) = .ok (.phone c o n) ∧
    (∀ op num, phoneMatch (pySpaceStrip raw.data) = some (none, op, num) → c = "38") := by
  obtain ⟨c', o', n', hf, hshape, h38⟩ := phoneValidate_ok_spec h
  obtain ⟨rfl, rfl, rfl⟩ : c = c' ∧ o = o' ∧ n = n' := by
    cases hf; exact ⟨rfl, rfl, rfl⟩
  obtain ⟨hc1, hc2, ⟨o2, ho, hol, hod⟩, hn1, hn2⟩ := phoneShapeOk_spec hshape
  refine ⟨⟨?_, ?_⟩, phoneValidate_value hshape, h38⟩
  · rw [phoneValue_data]; rfl
  · rw [phoneValue_data]
    intro ch hch
    simp only [List.tail_cons, List.mem_append] at hch
    rcases hch with h1 | h2 | h3
    · exact hc2 ch h1
    · rw [ho] at h2
      rcases List.mem_cons.mp h2 with rfl | h2'
      · decide
      · exact hod ch h2'
    · exact hn2 ch h3

/-- Witness for C4 at the concrete raw input `"0501234567"` (country code
absent, so it defaults to `"38"`). -/
theorem phone_normalization_idempotent_witness :
    phoneValidate "0501234567" = .ok (.phone "38" "050" "1234567") ∧
    (((phoneValue "38" "050" "1234567").data.head? = some '+' ∧
      ∀ ch ∈ (phoneValue "38" "050" "1234567").data.tail, ch.isDigit) ∧
    phoneValidate (phoneValue "38" "050" "1234567") = .ok (.phone "38" "050" "1234567") ∧
    (∀ op num, phoneMatch (pySpaceStrip "0501234567".data) = some (none, op, num) →
      "38" = "38")) :=
  ⟨rfl, phone_normalization_idempotent "0501234567" "38" "050" "1234567" rfl⟩

/-- Claim C7 (amended).  Phone construction removes every space character
(U+0020) from the raw input — not all whitespace — and then fails with
`IncorrectInput` exactly when the pattern does not match the space-stripped
string.  (The "operator group absent" case of the claim is vacuous: the
pattern cannot match without that mandatory group, which is also why the
source's `operator is None` branch is dead code.) -/
theorem phone_validate_error_iff (raw : String) :
    phoneValidate raw = .error .incorrectInput ↔
      phoneMatch (pySpaceStrip raw.data) = none := by
  cases hm : phoneMatch (pySpaceStrip raw.data) with
  | none => simp [phoneValidate, hm]
  | some g =>
      obtain ⟨co, op, num⟩ := g
      simp [phoneValidate, hm]

/-- Counterexample to C7 as stated: `"\t0501234567"` still contains its tab
after the code's space-only strip, so the anchored pattern fails and
construction raises `IncorrectInput` — yet after stripping ALL whitespace
(the claim's wording) the pattern does match, and indeed the tab-free
input constructs fine. -/
theorem phone_strip_spaces_only_counterexample :
    phoneValidate "\t0501234567" = .error .incorrectInput ∧
    (phoneMatch (claimWsStrip "\t0501234567".data)).isSome = true ∧
    phoneValidate "0501234567" = .ok (.phone "38" "050" "1234567") :=
  ⟨rfl, rfl, rfl⟩

/-- Claim C3 (amended).  `field_search(kind, probe)` returns `probe in f` for
the FIRST field `f` of that kind in the record — later fields of the same
kind are never consulted — and returns `False` without error when the
record has no field of the kind. -/
theorem field_search_first_of_kind (fc : DField → String → Except PyErr Bool)
    (r : List DField) (kind probe : String) :
    recFieldSearch fc r kind probe =
      match r.find? (fun f => fieldDesc f = kind) with
      | none => .ok false
      | some f => fc f probe := by
  induction r with
  | nil => rfl
  | cons f rest ih =>
      by_cases hd : fieldDesc f = kind
      · rw [List.find?_cons_of_pos _ (by simp [hd])]
        simp [recFieldSearch, hd]
      · rw [List.find?_cons_of_neg _ (by simp [hd])]
        simp only [recFieldSearch, if_neg hd]
        exact ih

/-- Counterexample to C3 as stated: in a record with two Skill fields the
second one contains the probe, yet `field_search` answers `False` because
it only consults the first Skill field. -/
theorem field_search_ignores_later_match :
    recFieldSearch crmFieldContains
        [.general "Skill" (.jstr "python"), .general "Skill" (.jstr "lean")]
        "Skill" "lean" = .ok false ∧
    crmFieldContains (.general "Skill" (.jstr "lean")) "lean" = .ok true :=
  ⟨rfl, rfl⟩

/-- Claim C5 (amended).  In the `crm.py` variant, `probe in rate_field` is
numeric: true exactly when the probe parses as a float equal to the value,
and a non-numeric probe yields `False`, never an error.  In the
`answer.py` variant, however, `__contains__` is substring containment of
the probe in `str(value)`, and the numeric comparison lives in `__eq__`. -/
theorem rate_contains_semantics (q : ℚ) (probe : String) :
    (crmFieldContains (.rate q) probe = .ok true ↔
      ∃ x, pyFloatParse probe = some x ∧ x = q) ∧
    (∃ b, crmFieldContains (.rate q) probe = .ok b) ∧
    ansFieldContains (.rate q) probe = .ok (strIn probe (pyFloatRepr q)) ∧
    (ansRateEq q probe = true ↔ ∃ x, pyFloatParse probe = some x ∧ x = q) := by
  refine ⟨?_, ⟨crmRateContains q probe, rfl⟩, rfl, ?_⟩
  · unfold crmFieldContains crmRateContains
    cases hp : pyFloatParse probe with
    | none => simp [hp]
    | some x => simp [hp]
  · unfold ansRateEq
    cases hp : pyFloatParse probe with
    | none => simp [hp]
    | some x => simp [hp]

/-- Counterexample to C5 as stated: with a Rate of `50.0` and probe `"0"`,
the `answer.py` `__contains__` finds `"0"` inside `"50.0"` and answers
true, although `float("0") = 0 ≠ 50` — substring containment on the
printed value, not numeric equality. -/
theorem ans_rate_contains_substring_counterexample :
    ansFieldContains (.rate 50) "0" = .ok true ∧
    pyFloatParse "0" = some 0 ∧ (0 : ℚ) ≠ 50 := by
  refine ⟨rfl, ?_, by norm_num⟩
  rw [show pyFloatParse "0" = some (decimalVal ['0'] [] false 0) from rfl]
  norm_num [decimalVal, show digitsVal ['0'] = (0 : ℕ) from rfl]

/-- Claim C8.  `multiple_search` is the conjunction of `field_search` over
the criteria — `ok true` exactly when every criterion's `field_search` is
`ok true`, an empty criteria map vacuously so — and the store-level
`multiple_search` with empty criteria returns every record. -/
theorem multi_search_conjunction (fc : DField → String → Except PyErr Bool)
    (r : List DField) (crit : List (String × String)) :
    (recMultiSearch fc r crit = .ok true ↔
      ∀ kp ∈ crit, recFieldSearch fc r kp.1 kp.2 = .ok true) ∧
    ∀ recs : List (ℕ × List DField), abMultiSearch fc [] recs = .ok recs := by
  constructor
  · induction crit with
    | nil => simp [recMultiSearch]
    | cons kp rest ih =>
        obtain ⟨k, p⟩ := kp
        cases hfs : recFieldSearch fc r k p with
        | error e => simp [recMultiSearch, hfs, List.forall_mem_cons]
        | ok b =>
            cases b with
            | true => simp [recMultiSearch, hfs, List.forall_mem_cons, ih]
            | false => simp [recMultiSearch, hfs, List.forall_mem_cons]
  · intro recs
    induction recs with
    | nil => rfl
    | cons pr rest ih =>
        obtain ⟨id, r'⟩ := pr
        simp [abMultiSearch, recMultiSearch, ih, Except.map]

theorem list_set_get_self : ∀ {α : Type} (l : List α) (i : ℕ) (h : i < l.length),
    l.set i (l.get ⟨i, h⟩) = l
  | _, a :: l, 0, _ => rfl
  | _, a :: l, i + 1, h => by
      simp only [List.set, List.get]
      rw [list_set_get_self l i (by simpa using h)]

theorem validateField_error_unchanged (f : DField) (v : JValue) (e : PyErr)
    (h : (validateField f v).1 = .error e) : (validateField f v).2 = f := by
  cases f with
  | general d w => simp [validateField] at h
  | phone c o n =>
      cases v with
      | jstr raw =>
          simp only [validateField] at h ⊢
          cases hpv : phoneValidate raw with
          | ok f' => rw [hpv] at h; exact absurd h (by simp)
          | error e' => rfl
      | jnull => rfl
      | jbool b => rfl
      | jnum x => rfl
      | jarr xs => rfl
      | jobj kvs => rfl
  | email a =>
      cases v with
      | jstr s' =>
          simp only [validateField] at h ⊢
          by_cases he : emailOk s'
          · rw [if_pos he] at h; exact absurd h (by simp)
          · rw [if_neg he]
      | jnull => rfl
      | jbool b => rfl
      | jnum x => rfl
      | jarr xs => rfl
      | jobj kvs => rfl
  | rate q =>
      simp only [validateField] at h ⊢
      cases hrp : rateParse v with
      | ok x => rw [hrp] at h; exact absurd h (by simp)
      | error e' => rfl

/-- Claim C9.  `Record.update` is atomic: for an in-range index, when
re-validation of the raw value against the existing field raises
`IncorrectInput`, the record — that field, its previously valid value and
all its other attributes included — is left exactly as it was, because
every validator assigns only after all its checks pass. -/
theorem record_update_atomic (r : List DField) (idx : ℕ) (v : JValue)
    (hlt : idx < r.length)
    (herr : (recUpdate r idx v).1 = .error .incorrectInput) :
    (recUpdate r idx v).2 = r := by
  unfold recUpdate at herr ⊢
  rw [dif_pos hlt] at herr ⊢
  have herr' : (validateField (r.get ⟨idx, hlt⟩) v).1 = .error .incorrectInput := herr
  show r.set idx (validateField (r.get ⟨idx, hlt⟩) v).2 = r
  rw [validateField_error_unchanged _ _ _ herr']
  exact list_set_get_self r idx hlt

/-- Witness for C9: updating the only field (a Rate) of a record with the
non-numeric `"x"` raises `IncorrectInput` and leaves the record intact. -/
theorem record_update_atomic_witness :
    0 < ([DField.rate 1] : List DField).length ∧
    (recUpdate [.rate 1] 0 (.jstr "x")).1 = .error .incorrectInput ∧
    (recUpdate [.rate 1] 0 (.jstr "x")).2 = [.rate 1] :=
  ⟨by decide, rfl, record_update_atomic [.rate 1] 0 (.jstr "x") (by decide) rfl⟩

/-- Claim C10.  `crm.py` registers the base tag `"General"` (from
`DataField.field_description`), so decoding
`{"field_name": "General", "value": v}` succeeds for every value `v` and
stores `v` verbatim with no validation; the `answer.py` registry — like
the spec's enumerated kind set — has no such tag. -/
theorem general_kind_decodes_verbatim (v : JValue) :
    fieldDecoder crmRegistry (.jobj [("field_name", .jstr "General"), ("value", v)]) =
      .ok (.general "General" v) ∧
    crmRegistry.contains "General" = true ∧
    ansRegistry.contains "General" = false :=
  ⟨rfl, rfl, rfl⟩

/-- Claim C2 (amended).  `get_rate_stat` skips records without a Rate field
silently and treats a first-Rate value that is falsy — in particular
exactly `0` — as absent; when no record contributes a rate, mean, min and
max are the `None` sentinel and the count is `0`, with a `total` of `0` in
the `answer.py` variant; the `crm.py` variant's result has no sum/total
component at all — its keys are always exactly
`mean, min, max, item_number`. -/
theorem rate_stat_semantics :
    (∀ (r : List DField) (rest : List (List DField)), getRate r = none →
        ansGetRateStat (r :: rest) = ansGetRateStat rest ∧
        crmGetRateStat (r :: rest) = crmGetRateStat rest) ∧
    (∀ (r : List DField) (rest : List (List DField)) (v : JValue),
        getRate r = some v → pyTruthy v = false →
        ansGetRateStat (r :: rest) = ansGetRateStat rest ∧
        crmGetRateStat (r :: rest) = crmGetRateStat rest) ∧
    (∀ records : List (List DField), collectRates records = [] →
        ansGetRateStat records =
          .ok [("mean", .jnull), ("min", .jnull), ("max", .jnull),
               ("item_number", .jnum 0), ("total", .jnum 0)] ∧
        crmGetRateStat records =
          .ok [("mean", .jnull), ("min", .jnull), ("max", .jnull),
               ("item_number", .jnum 0)]) ∧
    (∀ (records : List (List DField)) (kvs : List (String × JValue)),
        crmGetRateStat records = .ok kvs →
        kvs.map Prod.fst = ["mean", "min", "max", "item_number"]) := by
  refine ⟨?_, ?_, ?_, ?_⟩
  · intro r rest h
    have hc : collectRates (r :: rest) = collectRates rest := by
      simp [collectRates, h]
    exact ⟨by simp [ansGetRateStat, hc], by simp [crmGetRateStat, hc]⟩
  · intro r rest v h hv
    have hc : collectRates (r :: rest) = collectRates rest := by
      simp [collectRates, h, hv]
    exact ⟨by simp [ansGetRateStat, hc], by simp [crmGetRateStat, hc]⟩
  · intro records h
    exact ⟨by simp [ansGetRateStat, h, ratesToQ], by simp [crmGetRateStat, h, ratesToQ]⟩
  · intro records kvs h
    simp only [crmGetRateStat] at h
    cases hm : ratesToQ (collectRates records) with
    | none => rw [hm] at h; exact absurd h (by simp)
    | some qs =>
        rw [hm] at h
        cases qs with
        | nil =>
            simp only [Except.ok.injEq] at h
            rw [← h]; rfl
        | cons q rest =>
            simp only [Except.ok.injEq] at h
            rw [← h]; rfl

/-- Witness for C2 (amended) at concrete inputs: a record with only a Name
field is skipped; a record whose Rate is exactly `0` is skipped; the empty
collection yields the sentinel results; and the `crm.py` result keys carry
no sum. -/
theorem rate_stat_semantics_witness :
    (ansGetRateStat [[DField.general "Name" (.jstr "Ada")]] = ansGetRateStat [] ∧
     crmGetRateStat [[DField.general "Name" (.jstr "Ada")]] = crmGetRateStat []) ∧
    (ansGetRateStat [[DField.rate 0]] = ansGetRateStat [] ∧
     crmGetRateStat [[DField.rate 0]] = crmGetRateStat []) ∧
    (ansGetRateStat [] =
        .ok [("mean", .jnull), ("min", .jnull), ("max", .jnull),
             ("item_number", .jnum 0), ("total", .jnum 0)] ∧
     crmGetRateStat [] =
        .ok [("mean", .jnull), ("min", .jnull), ("max", .jnull),
             ("item_number", .jnum 0)]) ∧
    ([("mean", JValue.jnull), ("min", JValue.jnull), ("max", JValue.jnull),
      ("item_number", JValue.jnum 0)].map Prod.fst =
        ["mean", "min", "max", "item_number"]) :=
  ⟨rate_stat_semantics.1 _ [] rfl,
   rate_stat_semantics.2.1 _ [] (.jnum 0) rfl (by decide),
   rate_stat_semantics.2.2.1 [] rfl,
   rate_stat_semantics.2.2.2 [] _ rfl⟩

/-- Counterexample to C2 as stated: the `crm.py` `get_rate_stat` result at
the concrete input `[]` (no record contributes a Rate) is exactly the four
entries `mean, min, max, item_number` — there is no `sum`/`total` entry to
be `0`, so "returns … and sum = 0" fails on this variant. -/
theorem crm_stat_has_no_sum_counterexample :
    crmGetRateStat [] =
      .ok [("mean", .jnull), ("min", .jnull), ("max", .jnull), ("item_number", .jnum 0)] ∧
    [("mean", JValue.jnull), ("min", JValue.jnull), ("max", JValue.jnull),
      ("item_number", JValue.jnum 0)].map Prod.fst = ["mean", "min", "max", "item_number"] :=
  ⟨rfl, rfl⟩

theorem abReplace_ok_lastId {s s' : AddressBook} {id : ℕ} {r : List DField}
    (h : abReplace s id r = .ok s') : s'.lastId = s.lastId := by
  unfold abReplace at h
  by_cases hm : (s.records.find? (fun kv => kv.1 = id)).isSome
  · rw [if_pos hm] at h
    simp only [Except.ok.injEq] at h
    rw [← h]
  · rw [if_neg hm] at h; exact absurd h (by simp)

theorem abDelete_ok_lastId {s s' : AddressBook} {id : ℕ}
    (h : abDelete s id = .ok s') : s'.lastId = s.lastId := by
  unfold abDelete at h
  by_cases hm : (s.records.find? (fun kv => kv.1 = id)).isSome
  · rw [if_pos hm] at h
    simp only [Except.ok.injEq] at h
    rw [← h]
  · rw [if_neg hm] at h; exact absurd h (by simp)

theorem ansStep_basic_inv {e e' : AbExec} {op : StoreOp} (hb : basicOp op = true)
    (hinv : e.issued = List.range e.store.lastId)
    (h : ansStep e op = .ok e') : e'.issued = List.range e'.store.lastId := by
  cases op with
  | add r =>
      simp only [ansStep, abAdd, Except.ok.injEq] at h
      rw [← h]
      simp [hinv, List.range_succ]
  | repl id r =>
      simp only [ansStep] at h
      cases habr : abReplace e.store id r with
      | error er => rw [habr] at h; exact absurd h (by simp [Except.map])
      | ok s =>
          rw [habr] at h
          simp only [Except.map, Except.ok.injEq] at h
          rw [← h]
          simpa [abReplace_ok_lastId habr] using hinv
  | del id =>
      simp only [ansStep] at h
      cases habr : abDelete e.store id with
      | error er => rw [habr] at h; exact absurd h (by simp [Except.map])
      | ok s =>
          rw [habr] at h
          simp only [Except.map, Except.ok.injEq] at h
          rw [← h]
          simpa [abDelete_ok_lastId habr] using hinv
  | clear => simp [basicOp] at hb
  | load input => simp [basicOp] at hb

theorem ansRun_inv (ops : List StoreOp) (e0 e : AbExec)
    (hb : ops.all basicOp = true)
    (hinv : e0.issued = List.range e0.store.lastId)
    (h : ansRun e0 ops = .ok e) : e.issued = List.range e.store.lastId := by
  induction ops generalizing e0 with
  | nil =>
      simp only [ansRun, Except.ok.injEq] at h
      rw [← h]; exact hinv
  | cons op rest ih =>
      simp only [List.all_cons, Bool.and_eq_true] at hb
      simp only [ansRun] at h
      cases hstep : ansStep e0 op with
      | error er => rw [hstep] at h; exact absurd h (by simp)
      | ok e1 =>
          rw [hstep] at h
          exact ih e1 hb.2 (ansStep_basic_inv hb.1 hinv hstep) h

/-- Claim C6 (amended).  Under `add`/`replace`/`delete` alone (from a fresh
store), the ghost trace of issued ids is exactly `range next_id`: ids are
allocated monotonically from 0, never reused, and `next_id` exceeds every
issued id.  But `clear` resets `next_id` to 0 while keeping the store's
history (so ids are reused after it); bulk-load in the API variant raises
`ValueError` on an empty collection instead of leaving `next_id` untouched,
and on success recomputes `next_id` as one past the maximum loaded id. -/
theorem id_allocation_invariant :
    (∀ (ops : List StoreOp) (e : AbExec), ops.all basicOp = true →
        ansRun ⟨⟨[], 0⟩, []⟩ ops = .ok e →
        e.issued = List.range e.store.lastId ∧ e.issued.Nodup ∧
          ∀ i ∈ e.issued, i < e.store.lastId) ∧
    (∀ e : AbExec, ansStep e .clear = .ok ⟨⟨[], 0⟩, e.issued⟩) ∧
    (∀ s : AddressBook, crmLoads s [] = .error .valueError) ∧
    (∀ (s s' : AddressBook) (input : List (String × JValue)),
        crmLoads s input = .ok s' →
        ∃ k ks, s'.records.map (fun kv => kv.1) = k :: ks ∧
          s'.lastId = ks.foldl max k + 1) := by
  refine ⟨?_, fun e => rfl, fun s => rfl, ?_⟩
  · intro ops e hb h
    have hinv := ansRun_inv ops ⟨⟨[], 0⟩, []⟩ e hb rfl h
    refine ⟨hinv, ?_, ?_⟩
    · rw [hinv]; exact List.nodup_range _
    · intro i hi
      rw [hinv] at hi
      exact List.mem_range.mp hi
  · intro s s' input h
    unfold crmLoads at h
    cases hcore : crmLoadsCore [] input with
    | error e => rw [hcore] at h; exact absurd h (by simp)
    | ok recs =>
        rw [hcore] at h
        dsimp only at h
        cases hkeys : recs.map (fun kv => kv.1) with
        | nil => rw [hkeys] at h; exact absurd h (by simp)
        | cons k ks =>
            rw [hkeys] at h
            simp only [Except.ok.injEq] at h
            rw [← h]
            exact ⟨k, ks, hkeys, rfl⟩

/-- Witness for C6 (amended): the basic sequence add, delete 0, add ends
with issued trace `[0, 1]` and `next_id = 2`; and a bulk-load of
`{"5": []}` recomputes `next_id = 6`. -/
theorem id_allocation_invariant_witness :
    ((AbExec.mk ⟨[(1, [])], 2⟩ [0, 1]).issued =
        List.range (AbExec.mk ⟨[(1, [])], 2⟩ [0, 1]).store.lastId ∧
      (AbExec.mk ⟨[(1, [])], 2⟩ [0, 1]).issued.Nodup ∧
      ∀ i ∈ (AbExec.mk ⟨[(1, [])], 2⟩ [0, 1]).issued,
        i < (AbExec.mk ⟨[(1, [])], 2⟩ [0, 1]).store.lastId) ∧
    (∃ k ks, (AddressBook.mk [(5, [])] 6).records.map (fun kv => kv.1) = k :: ks ∧
      (AddressBook.mk [(5, [])] 6).lastId = ks.foldl max k + 1) :=
  ⟨id_allocation_invariant.1 [.add [], .del 0, .add []] ⟨⟨[(1, [])], 2⟩, [0, 1]⟩ rfl rfl,
   id_allocation_invariant.2.2.2 ⟨[], 0⟩ ⟨[(5, [])], 6⟩ [("5", .jarr [])] rfl⟩

/-- Counterexample to C6 as stated: after the operation sequence
`[add, clear]` — both operations the claim quantifies over — the store's
`next_id` is 0 again although id 0 was already issued, so `next_id` is not
strictly greater than every id ever issued and the next `add` reuses 0. -/
theorem clear_resets_counter_counterexample :
    ansRun ⟨⟨[], 0⟩, []⟩ [.add [], .clear] = .ok ⟨⟨[], 0⟩, [0]⟩ ∧
    (0 : ℕ) ∈ [0] ∧ ¬((0 : ℕ) < 0) :=
  ⟨rfl, by decide, by decide⟩

theorem digitToChar_spec : ∀ d : ℕ, d < 10 →
    (digitToChar d).isDigit = true ∧ charVal (digitToChar d) = d := by decide

theorem natFromRevDigits (l : List ℕ) :
    List.foldl (fun a d => a * 10 + d) 0 l.reverse = Nat.ofDigits 10 l := by
  induction l with
  | nil => simp [Nat.ofDigits]
  | cons d t ih =>
      rw [List.reverse_cons, List.foldl_append, ih, Nat.ofDigits_cons]
      simp only [List.foldl_cons, List.foldl_nil]
      ring

theorem digitsVal_repr (l : List ℕ) (hl : ∀ d ∈ l, d < 10) :
    digitsVal ((l.map digitToChar).reverse) = Nat.ofDigits 10 l := by
  induction l with
  | nil => simp [digitsVal, Nat.ofDigits]
  | cons d t ih =>
      rw [List.map_cons, List.reverse_cons]
      unfold digitsVal
      rw [List.foldl_append]
      have ht := ih (fun x hx => hl x (List.mem_cons_of_mem _ hx))
      unfold digitsVal at ht
      rw [ht, Nat.ofDigits_cons]
      simp only [List.foldl_cons, List.foldl_nil]
      rw [(digitToChar_spec d (hl d (List.mem_cons_self d t))).2]
      ring

theorem pyNatParse_repr (n : ℕ) : pyNatParse (pyNatRepr n) = some n := by
  by_cases h0 : n = 0
  · subst h0; rfl
  · have hdig : ∀ d ∈ Nat.digits 10 n, d < 10 :=
      fun d hd => Nat.digits_lt_base (by norm_num) hd
    have hdata : (pyNatRepr n).data = ((Nat.digits 10 n).map digitToChar).reverse := by
      unfold pyNatRepr
      rw [if_neg h0]
    have hne : Nat.digits 10 n ≠ [] := Nat.digits_ne_nil_iff_ne_zero.mpr h0
    have hall : ∀ ch ∈ ((Nat.digits 10 n).map digitToChar).reverse, ch.isDigit = true := by
      intro ch hch
      rw [List.mem_reverse, List.mem_map] at hch
      obtain ⟨d, hd, rfl⟩ := hch
      exact (digitToChar_spec d (hdig d hd)).1
    have hcond : (!((List.map digitToChar (Nat.digits 10 n)).reverse).isEmpty &&
        ((List.map digitToChar (Nat.digits 10 n)).reverse).all Char.isDigit) = true := by
      refine (Bool.and_eq_true _ _).mpr ⟨?_, List.all_eq_true.mpr hall⟩
      cases hlS : ((Nat.digits 10 n).map digitToChar).reverse with
      | nil => exact absurd (by simpa using hlS) hne
      | cons a t => rfl
    unfold pyNatParse
    rw [hdata, if_pos hcond, digitsVal_repr _ hdig, Nat.ofDigits_digits]

theorem crm_decode_field (f : DField) (h : crmFieldWF f = true) :
    fieldDecoder crmRegistry (fieldToDict f) = .ok f := by
  cases f with
  | general d v =>
      have hmem : d ∈ generalKinds := of_decide_eq_true h
      simp only [generalKinds, List.mem_cons, List.mem_singleton] at hmem
      rcases hmem with rfl | rfl | rfl | rfl | rfl | rfl | hfalse
      · rfl
      · rfl
      · rfl
      · rfl
      · rfl
      · rfl
      · exact absurd hfalse (List.not_mem_nil d)
  | phone c o n =>
      show phoneValidate (phoneValue c o n) = .ok (.phone c o n)
      exact phoneValidate_value h
  | email a =>
      have h' : emailOk a = true := h
      show (if emailOk a = true then Except.ok (DField.email a)
            else Except.error PyErr.incorrectInput) = .ok (.email a)
      rw [if_pos h']
  | rate q => rfl

theorem ans_decode_field (f : DField) (h : ansFieldWF f = true) :
    fieldDecoder ansRegistry (fieldToDict f) = .ok f := by
  cases f with
  | general d v =>
      have hmem : d ∈ ["Name", "City", "Skill"] := of_decide_eq_true h
      simp only [List.mem_cons, List.mem_singleton] at hmem
      rcases hmem with rfl | rfl | rfl | hfalse
      · rfl
      · rfl
      · rfl
      · exact absurd hfalse (List.not_mem_nil d)
  | phone c o n =>
      show phoneValidate (phoneValue c o n) = .ok (.phone c o n)
      exact phoneValidate_value h
  | email a => exact absurd h (by simp [ansFieldWF])
  | rate q => rfl

theorem decodeFields_map (registry : List String) (r : List DField)
    (h : ∀ f ∈ r, fieldDecoder registry (fieldToDict f) = .ok f) :
    decodeFields registry (r.map fieldToDict) = .ok r := by
  induction r with
  | nil => rfl
  | cons f rest ih =>
      rw [List.map_cons]
      unfold decodeFields
      rw [h f (List.mem_cons_self f rest)]
      rw [ih (fun g hg => h g (List.mem_cons_of_mem f hg))]
      rfl

theorem recFromJson_toDict (registry : List String) (r : List DField)
    (h : ∀ f ∈ r, fieldDecoder registry (fieldToDict f) = .ok f) :
    recFromJson registry (recToDict r) = .ok r :=
  decodeFields_map registry r h

theorem pyDictInsert_fresh (k : ℕ) (v : List DField) (l : List (ℕ × List DField))
    (h : ∀ q ∈ l, q.1 ≠ k) : pyDictInsert k v l = l ++ [(k, v)] := by
  induction l with
  | nil => rfl
  | cons q rest ih =>
      unfold pyDictInsert
      rw [if_neg (h q (List.mem_cons_self q rest))]
      rw [ih (fun p hp => h p (List.mem_cons_of_mem q hp))]
      rfl

theorem crmLoadsCore_dumps (recs : List (ℕ × List DField)) (acc : List (ℕ × List DField))
    (hwf : ∀ p ∈ recs, ∀ f ∈ p.2, crmFieldWF f = true)
    (hfresh : ∀ p ∈ recs, ∀ q ∈ acc, q.1 ≠ p.1)
    (hnd : (recs.map (fun kv => kv.1)).Nodup) :
    crmLoadsCore acc (recs.map (fun kv => (pyNatRepr kv.1, recToDict kv.2))) =
      .ok (acc ++ recs) := by
  induction recs generalizing acc with
  | nil => simp [crmLoadsCore]
  | cons p rest ih =>
      obtain ⟨k, r⟩ := p
      rw [List.map_cons] at hnd ⊢
      rw [List.nodup_cons] at hnd
      unfold crmLoadsCore
      rw [pyNatParse_repr]
      dsimp only
      rw [recFromJson_toDict crmRegistry r
        (fun f hf => crm_decode_field f (hwf (k, r) (List.mem_cons_self _ _) f hf))]
      dsimp only
      rw [pyDictInsert_fresh k r acc
        (fun q hq => hfresh (k, r) (List.mem_cons_self _ _) q hq)]
      have hfresh' : ∀ p' ∈ rest, ∀ q ∈ acc ++ [(k, r)], q.1 ≠ p'.1 := by
        intro p' hp' q hq
        rcases List.mem_append.mp hq with hq1 | hq2
        · exact hfresh p' (List.mem_cons_of_mem _ hp') q hq1
        · rcases List.mem_singleton.mp hq2 with rfl
          intro hkp
          exact hnd.1 (hkp ▸ List.mem_map_of_mem (fun kv => kv.1) hp')
      rw [ih (acc ++ [(k, r)]) (fun p' hp' => hwf p' (List.mem_cons_of_mem _ hp'))
        hfresh' hnd.2]
      rw [List.append_assoc]
      rfl

theorem ansDevFromJson_toJson (r : List DField)
    (h : ∀ f ∈ r, fieldDecoder ansRegistry (fieldToDict f) = .ok f) :
    ansDevFromJson (ansDevToJson r) = .ok r := by
  show recFromJson ansRegistry (recToDict r) = .ok r
  exact recFromJson_toDict _ _ h

theorem ansLoadsCore_dumps (recs : List (ℕ × List DField)) (s0 : AddressBook)
    (hwf : ∀ p ∈ recs, ∀ f ∈ p.2, ansFieldWF f = true)
    (hbound : ∀ q ∈ s0.records, q.1 < s0.lastId) :
    ansLoadsCore s0 (recs.map (fun kv => (pyNatRepr kv.1, ansDevToJson kv.2))) =
      .ok ⟨s0.records ++
             List.zip (List.range' s0.lastId recs.length 1) (recs.map (fun kv => kv.2)),
           s0.lastId + recs.length⟩ := by
  induction recs generalizing s0 with
  | nil => simp [ansLoadsCore]
  | cons p rest ih =>
      obtain ⟨k, r⟩ := p
      rw [List.map_cons]
      unfold ansLoadsCore
      rw [ansDevFromJson_toJson r
        (fun f hf => ans_decode_field f (hwf (k, r) (List.mem_cons_self _ _) f hf))]
      dsimp only [abAdd]
      have hins : pyDictInsert s0.lastId r s0.records = s0.records ++ [(s0.lastId, r)] :=
        pyDictInsert_fresh _ _ _ (fun q hq => Nat.ne_of_lt (hbound q hq))
      rw [hins]
      have hbound' : ∀ q ∈ s0.records ++ [(s0.lastId, r)], q.1 < s0.lastId + 1 := by
        intro q hq
        rcases List.mem_append.mp hq with hq1 | hq2
        · exact Nat.lt_succ_of_lt (hbound q hq1)
        · rcases List.mem_singleton.mp hq2 with rfl
          exact Nat.lt_succ_self _
      rw [show (AddressBook.mk (s0.records ++ [(s0.lastId, r)]) (s0.lastId + 1)) =
            (⟨s0.records ++ [(s0.lastId, r)], s0.lastId + 1⟩ : AddressBook) from rfl]
      rw [ih ⟨s0.records ++ [(s0.lastId, r)], s0.lastId + 1⟩
        (fun p' hp' => hwf p' (List.mem_cons_of_mem _ hp')) hbound']
      simp only [List.length_cons, List.map_cons, List.range'_succ, List.zip_cons_cons,
        List.append_assoc, List.singleton_append, Except.ok.injEq, AddressBook.mk.injEq]
      exact ⟨trivial, by omega⟩

theorem zip_range'_of_keys (l : List (ℕ × List DField)) (s : ℕ)
    (h : l.map (fun kv => kv.1) = List.range' s l.length 1) :
    List.zip (List.range' s l.length 1) (l.map (fun kv => kv.2)) = l := by
  induction l generalizing s with
  | nil => rfl
  | cons p t ih =>
      obtain ⟨k, v⟩ := p
      rw [List.map_cons, List.length_cons, List.range'_succ] at h
      injection h with h1 h2
      rw [List.map_cons, List.length_cons, List.range'_succ, List.zip_cons_cons,
        ih (s + 1) h2, ← h1]

/-- Claim C1 (amended).  Serialize–deserialize–serialize is the identity on
the serialized form for any store built purely from valid field
constructions, with one exception the code forces: in the `crm.py` variant
the store must contain at least one record, because `loads` recomputes
`last_record_id` with `max` over the loaded keys and raises `ValueError`
on an empty collection.  In the `crm.py` variant persisted ids are kept
verbatim (any well-formed store round-trips); in the `answer.py` variant
ids are freshly reassigned from 0, which reproduces the dump exactly when
the ids are the sequential `0..n-1` that pure `add`s produce. -/
theorem serialize_roundtrip (s t : AddressBook) :
    ((∀ p ∈ s.records, ∀ f ∈ p.2, crmFieldWF f = true) →
      (s.records.map (fun kv => kv.1)).Nodup →
      s.records ≠ [] →
      ∃ s', crmLoads t (crmDumps s) = .ok s' ∧ crmDumps s' = crmDumps s) ∧
    ((∀ p ∈ s.records, ∀ f ∈ p.2, ansFieldWF f = true) →
      s.records.map (fun kv => kv.1) = List.range s.records.length →
      ∃ s', ansLoads t (ansDumps s) = .ok s' ∧ ansDumps s' = ansDumps s) := by
  constructor
  · intro hwf hnd hne
    have hcore : crmLoadsCore [] (crmDumps s) = .ok s.records := by
      have h0 := crmLoadsCore_dumps s.records [] hwf
        (fun p hp q hq => absurd hq (List.not_mem_nil q)) hnd
      simpa using h0
    cases hm : s.records.map (fun kv => kv.1) with
    | nil =>
        have : s.records = [] := by simpa using hm
        exact absurd this hne
    | cons k ks =>
        refine ⟨⟨s.records, ks.foldl max k + 1⟩, ?_, rfl⟩
        unfold crmLoads
        rw [hcore]
        dsimp only
        rw [hm]
  · intro hwf hseq
    have h0 := ansLoadsCore_dumps s.records ⟨[], 0⟩ hwf
      (fun q hq => absurd hq (List.not_mem_nil q))
    have hz : List.zip (List.range' 0 s.records.length 1)
        (s.records.map (fun kv => kv.2)) = s.records :=
      zip_range'_of_keys s.records 0 (by rw [hseq, List.range_eq_range'])
    refine ⟨⟨s.records, s.records.length⟩, ?_, rfl⟩
    show ansLoadsCore ⟨[], 0⟩ (ansDumps s) = .ok ⟨s.records, s.records.length⟩
    unfold ansDumps
    rw [h0]
    simp [hz]

/-- Witness for C1 (amended): a one-record store with a Name and a Phone
field round-trips through both variants' serialize–deserialize (the
deserializing store's own prior contents are irrelevant). -/
theorem serialize_roundtrip_witness :
    (∃ s', crmLoads ⟨[], 5⟩ (crmDumps
        ⟨[(0, [.general "Name" (.jstr "Ada"), .phone "38" "050" "1234567"])], 1⟩) = .ok s' ∧
      crmDumps s' = crmDumps
        ⟨[(0, [.general "Name" (.jstr "Ada"), .phone "38" "050" "1234567"])], 1⟩) ∧
    (∃ s', ansLoads ⟨[], 5⟩ (ansDumps
        ⟨[(0, [.general "Name" (.jstr "Ada"), .phone "38" "050" "1234567"])], 1⟩) = .ok s' ∧
      ansDumps s' = ansDumps
        ⟨[(0, [.general "Name" (.jstr "Ada"), .phone "38" "050" "1234567"])], 1⟩) :=
  ⟨(serialize_roundtrip
      ⟨[(0, [.general "Name" (.jstr "Ada"), .phone "38" "050" "1234567"])], 1⟩ ⟨[], 5⟩).1
      (by decide) (by decide) (by simp),
   (serialize_roundtrip
      ⟨[(0, [.general "Name" (.jstr "Ada"), .phone "38" "050" "1234567"])], 1⟩ ⟨[], 5⟩).2
      (by decide) (by decide)⟩

/-- Counterexample to C1 as stated: the empty store is built purely from
valid constructions (zero records were added), its `crm.py` dump is the
empty JSON object, and deserializing that raises `ValueError` (from
`max(self.records.keys())` on an empty dict) instead of round-tripping. -/
theorem crm_empty_roundtrip_counterexample :
    crmDumps ⟨[], 0⟩ = [] ∧
    crmLoads ⟨[], 0⟩ (crmDumps ⟨[], 0⟩) = .error .valueError :=
  ⟨rfl, rfl⟩
